import Mathlib

/-!
Verification of the CardiotocographyML notebook (`src/ClassifierPipeline.ipynb`).

The notebook is a linear PySpark pipeline over a tabular dataset:
read CSV → `dropna` → `drop` (two fixed column lists) → `VectorAssembler`
→ `MinMaxScaler` (fit on the full dataset, then transform) → `randomSplit`
→ an incomplete `labels = ` assignment → `training = train_data.select(
train_data.columns[-1])`.

We embed the dataframe operations shallowly: a dataframe is a schema
(column names in order) and a list of rows, where each cell is either
missing (`null`), a numeric value (rationals stand in for the numeric
column types), or an assembled vector.  The Spark transformers used by
the notebook (`VectorAssembler`, `MinMaxScaler`, `randomSplit`) are
modelled by their documented behaviour, with fallible operations
returning `Except`.
-/

namespace CTG

/-- A dataframe cell: a missing value (`null`), a numeric value, or an
assembled feature vector (`VectorAssembler` output). -/
inductive Cell where
  | null : Cell
  | num : ℚ → Cell
  | vec : List ℚ → Cell
deriving DecidableEq, Repr

/-- A dataframe: ordered column names and rows of cells.
Rows are well-formed when each has the schema's length. -/
structure DataFrame where
  schema : List String
  rows : List (List Cell)
deriving DecidableEq, Repr

/-- `df.dropna()`: keep only the rows in which every cell is present. -/
def dropna (df : DataFrame) : DataFrame :=
  { df with rows := df.rows.filter (fun r => r.all (fun c => c ≠ Cell.null)) }

/-- The (name, cell) pairs of a row that survive dropping the named columns. -/
def prunePairs (names : List String) (schema : List String) (r : List Cell) :
    List (String × Cell) :=
  (schema.zip r).filter (fun p => !(names.contains p.1))

/-- `df.drop(names)`: remove the named columns, keeping every other column,
its order, and its values. -/
def dropCols (names : List String) (df : DataFrame) : DataFrame :=
  { schema := df.schema.filter (fun c => !(names.contains c)),
    rows := df.rows.map (fun r => (prunePairs names df.schema r).map Prod.snd) }

/-- The first fixed column list dropped by the notebook
(`df.drop("FileName","Date","SegFile")`). -/
def metaCols : List String := ["FileName", "Date", "SegFile"]

/-- The second fixed column list dropped by the notebook: the ten
one-hot-encoded class columns. -/
def oneHotCols : List String :=
  ["A", "B29", "C", "D", "E32", "AD", "DE", "LD", "FS", "SUSP"]

/-- The pruned dataframe `df` of the notebook: null rows dropped, then the
two fixed column lists removed. -/
def prunedDf (df0 : DataFrame) : DataFrame :=
  dropCols oneHotCols (dropCols metaCols (dropna df0))

/-- The schema printed by `df.printSchema()` after pruning. -/
def prunedSchema : List String :=
  ["b3", "e4", "LBE", "LB", "AC", "FM", "UC", "ASTV", "MSTV", "ALTV", "MLTV",
   "DL", "DS", "DP", "DR", "Width", "Min", "Max", "Nmax", "Nzeros", "Mode",
   "Mean", "Median", "Variance", "Tendency", "CLASS", "NSP"]

/-- `featuresToScale = [f[0] for f in df.dtypes if f[0] not in ["CLASS", "NSP"]]`:
every column name of `df`, in schema order, except the two label columns. -/
def featuresToScale (df : DataFrame) : List String :=
  df.schema.filter (fun c => !(["CLASS", "NSP"].contains c))

/-- Look up the cell of column `c` in row `r` of a dataframe with schema
`schema`. Errors when the column does not exist (as Spark would). -/
def getCell (schema : List String) (r : List Cell) (c : String) :
    Except String Cell :=
  match (schema.zip r).find? (fun p => p.1 == c) with
  | some p => Except.ok p.2
  | none => Except.error ("column not found: " ++ c)

/-- The numeric contents a cell contributes to an assembled vector.
Modelled from Spark `VectorAssembler` semantics: a numeric cell contributes
its value, a vector cell is flattened, a null raises an error
(`handleInvalid` defaults to `error`). -/
def cellContents : Cell → Except String (List ℚ)
  | Cell.null => Except.error "VectorAssembler: null value in input column"
  | Cell.num q => Except.ok [q]
  | Cell.vec v => Except.ok v

/-- The numeric value of a cell (0 for non-numeric cells; only applied to
numeric cells in the statements below). -/
def numVal : Cell → ℚ
  | Cell.num q => q
  | _ => 0

/-- Assemble one row: concatenate, in order, the contents of the cells of
the input columns. -/
def assembleRow (cols : List String) (schema : List String) (r : List Cell) :
    Except String (List ℚ) :=
  (cols.mapM (fun c => (getCell schema r c).bind cellContents)).map List.flatten

/-- `VectorAssembler(inputCols=cols, outputCol=out).transform(df)`:
append to each row a vector cell holding the concatenation of the named
input columns, and `out` to the schema. -/
def assemblerTransform (cols : List String) (out : String) (df : DataFrame) :
    Except String DataFrame :=
  (df.rows.mapM (fun r => (assembleRow cols df.schema r).map
      (fun v => r ++ [Cell.vec v]))).map
    (fun rs => { schema := df.schema ++ [out], rows := rs })

/-- Extract the vector stored in the named column of a row. -/
def getVec (schema : List String) (r : List Cell) (c : String) :
    Except String (List ℚ) :=
  (getCell schema r c).bind (fun cell =>
    match cell with
    | Cell.vec v => Except.ok v
    | _ => Except.error ("column is not a vector: " ++ c))

/-- The per-dimension minimum of a non-empty list of vectors
(`MinMaxScaler.fit` observed minimum; `none` on an empty dataset). -/
def fitMin : List (List ℚ) → Option (List ℚ)
  | [] => none
  | v :: vs => some (vs.foldl (fun acc w => List.zipWith min acc w) v)

/-- The per-dimension maximum of a non-empty list of vectors
(`MinMaxScaler.fit` observed maximum; `none` on an empty dataset). -/
def fitMax : List (List ℚ) → Option (List ℚ)
  | [] => none
  | v :: vs => some (vs.foldl (fun acc w => List.zipWith max acc w) v)

/-- Rescale one coordinate. Modelled from Spark `MinMaxScaler` with the
default range [0, 1]: `(x - mn) / (mx - mn)` and, when the observed
maximum equals the observed minimum, the constant `0.5`. -/
def scaleCell (mn mx x : ℚ) : ℚ :=
  if mn = mx then 1 / 2 else (x - mn) / (mx - mn)

/-- Rescale a vector coordinatewise by the fitted minima and maxima. -/
def scaleVec : List ℚ → List ℚ → List ℚ → List ℚ
  | mn :: mns, mx :: mxs, x :: xs => scaleCell mn mx x :: scaleVec mns mxs xs
  | _, _, _ => []

/-- `MinMaxScaler(inputCol=inp, outputCol=out)`: fit the per-dimension
minima/maxima on the `inp` column of the whole dataframe, then append to
each row the rescaled vector as column `out`. -/
def minMaxScalerFitTransform (inp out : String) (df : DataFrame) :
    Except String DataFrame :=
  (df.rows.mapM (fun r => getVec df.schema r inp)).bind (fun vecs =>
    match fitMin vecs, fitMax vecs with
    | some mn, some mx =>
        Except.ok
          { schema := df.schema ++ [out],
            rows := (df.rows.zip vecs).map
              (fun p => p.1 ++ [Cell.vec (scaleVec mn mx p.2)]) }
    | _, _ => Except.error "MinMaxScaler: empty dataset")

/-- Normalize split weights to probabilities (Spark `randomSplit`
normalizes weights that do not sum to 1). -/
def normWeights (ws : List ℚ) : List ℚ :=
  ws.map (fun w => w / ws.sum)

/-- Assign each row (at absolute index `i`) a uniform draw `rnd i ∈ [0,1)`
and send it to the first part when the draw is below the threshold `t`,
to the second otherwise. Modelled from Spark `randomSplit` semantics:
every row goes to exactly one part, by a per-row draw seeded
deterministically. -/
def splitRows (rnd : ℕ → ℚ) (t : ℚ) :
    ℕ → List (List Cell) → List (List Cell) × List (List Cell)
  | _, [] => ([], [])
  | i, r :: rs =>
      let p := splitRows rnd t (i + 1) rs
      if rnd i < t then (r :: p.1, p.2) else (p.1, r :: p.2)

/-- `df.randomSplit([w1, w2], seed)` with the draws abstracted as `rnd`
(a pure function of the seed): the threshold is the normalized first
weight `w1 / (w1 + w2)`. -/
def randomSplit2 (rnd : ℕ → ℚ) (w1 w2 : ℚ) (df : DataFrame) :
    DataFrame × DataFrame :=
  let p := splitRows rnd (w1 / (w1 + w2)) 0 df.rows
  ({ df with rows := p.1 }, { df with rows := p.2 })

/-- A deterministic per-index draw in [0, 1), standing in for Spark's
seeded XORShift generator: a linear congruential step on `seed + i`. -/
def seededDraw (seed : ℕ) (i : ℕ) : ℚ :=
  (((seed + i) * 1103515245 + 12345) % 2147483648 : ℕ) / (2147483648 : ℚ)

/-- `temp_train = assembler.transform(df)` where
`assembler = VectorAssembler(inputCols=featuresToScale, outputCol="x_vec")`
and `df` is the pruned dataframe. -/
def temp_train (df0 : DataFrame) : Except String DataFrame :=
  assemblerTransform (featuresToScale (prunedDf df0)) "x_vec" (prunedDf df0)

/-- `scaledData = scaler.fit(temp_train).transform(temp_train)` where
`scaler = MinMaxScaler(inputCol="x_vec", outputCol="x_scaled")`. -/
def scaledData (df0 : DataFrame) : Except String DataFrame :=
  (temp_train df0).bind (minMaxScalerFitTransform "x_vec" "x_scaled")

/-- The two weights passed to `randomSplit`: `[0.75, 0.35]`. -/
def splitWeights : List ℚ := [75 / 100, 35 / 100]

/-- The seed passed to `randomSplit`: `23`. -/
def splitSeed : ℕ := 23

/-- `train_data, test_data = scaledData.randomSplit([0.75, 0.35], 23)`,
with the seeded draws abstracted as `rnd`. -/
def splitData (rnd : ℕ → ℚ) (df0 : DataFrame) :
    Except String (DataFrame × DataFrame) :=
  (scaledData df0).map (randomSplit2 rnd (75 / 100) (35 / 100))

/-- `train_data` of the notebook. -/
def train_data (rnd : ℕ → ℚ) (df0 : DataFrame) : Except String DataFrame :=
  (splitData rnd df0).map Prod.fst

/-- `test_data` of the notebook. -/
def test_data (rnd : ℕ → ℚ) (df0 : DataFrame) : Except String DataFrame :=
  (splitData rnd df0).map Prod.snd

/-- `df.select(c)`: keep only the named column. -/
def selectCol (c : String) (df : DataFrame) : DataFrame :=
  { schema := [c],
    rows := df.rows.map (fun r =>
      ((df.schema.zip r).filter (fun p => p.1 == c)).map Prod.snd) }

/-- `df.columns[-1]`: the last column name of the dataframe. -/
def lastColumn (df : DataFrame) : String :=
  df.schema.getLastD ""

/-- `training = train_data.select(train_data.columns[-1])`. -/
def training (rnd : ℕ → ℚ) (df0 : DataFrame) : Except String DataFrame :=
  (train_data rnd df0).map (fun td => selectCol (lastColumn td) td)

/-- One simple statement of a notebook cell: assignment targets and an
optional right-hand side (`none` embeds a right-hand side the source
leaves empty). -/
structure AssignStmt where
  targets : List String
  rhs : Option String
deriving DecidableEq, Repr

/-- The final split/label-extraction cell of the notebook as committed:
`train_data, test_data = scaledData.randomSplit([0.75, 0.35], 23)` followed
by the assignment `labels = ` whose right-hand side is empty. -/
def finalCellStmts : List AssignStmt :=
  [{ targets := ["train_data", "test_data"],
     rhs := some "scaledData.randomSplit([0.75, 0.35], 23)" },
   { targets := ["labels"], rhs := none }]

/-- Python parses a whole cell before running any of it; an assignment
whose right-hand side is empty is a syntax error, so such a cell cannot
run to completion. -/
def runCell (stmts : List AssignStmt) : Except String Unit :=
  if stmts.all (fun s => s.rhs.isSome) then Except.ok ()
  else Except.error "SyntaxError: invalid syntax"

/-- The end-to-end notebook run, `spark.read` abstracted as its result
`readResult`: every later stage is reached through `Except.bind`, so with
no handler anywhere an error from any stage is returned unchanged. The
run covers the cells through the final (incomplete) split cell. -/
def notebookRun (readResult : Except String DataFrame) (rnd : ℕ → ℚ) :
    Except String (DataFrame × DataFrame) :=
  readResult.bind (fun df0 =>
    (splitData rnd df0).bind (fun p =>
      (runCell finalCellStmts).map (fun _ => p)))

/-- Whether a run result is a success. -/
def runSucceeds {α : Type} : Except String α → Bool
  | Except.ok _ => true
  | Except.error _ => false

/-- A small concrete input dataset (same shape as the CTG file: metadata
column, feature columns including the constant `DR`, one-hot column, the
two labels, and one row with a missing value). -/
def sampleRaw : DataFrame :=
  { schema := ["FileName", "DR", "AC", "A", "CLASS", "NSP"],
    rows := [[Cell.num 9, Cell.num 0, Cell.num 0, Cell.num 1, Cell.num 1,
              Cell.num 1],
             [Cell.num 8, Cell.num 0, Cell.num 2, Cell.num 0, Cell.num 2,
              Cell.num 1],
             [Cell.num 7, Cell.null, Cell.num 1, Cell.num 0, Cell.num 3,
              Cell.num 2]] }

/-- The training part of the seeded split of `sampleRaw` (row at index 1,
whose seeded draw falls below 15/22). -/
def sampleTrain : DataFrame :=
  { schema := ["DR", "AC", "CLASS", "NSP", "x_vec", "x_scaled"],
    rows := [[Cell.num 0, Cell.num 2, Cell.num 2, Cell.num 1,
              Cell.vec [0, 2], Cell.vec [1 / 2, 1]]] }

/-- The test part of the seeded split of `sampleRaw` (row at index 0,
whose seeded draw falls above 15/22). -/
def sampleTest : DataFrame :=
  { schema := ["DR", "AC", "CLASS", "NSP", "x_vec", "x_scaled"],
    rows := [[Cell.num 0, Cell.num 0, Cell.num 1, Cell.num 1,
              Cell.vec [0, 0], Cell.vec [1 / 2, 0]]] }

/-- A dataset whose single feature column is constant (like `DR` in the
committed run): the min-max formula divides by zero there. -/
def constRaw : DataFrame :=
  { schema := ["DR", "CLASS", "NSP"],
    rows := [[Cell.num 0, Cell.num 1, Cell.num 1],
             [Cell.num 0, Cell.num 2, Cell.num 1]] }

/-- A tiny assembled dataframe used to instantiate the scaler theorems. -/
def vecOnlyDf : DataFrame :=
  { schema := ["x_vec"], rows := [[Cell.vec [0]], [Cell.vec [2]]] }

/-- `vecOnlyDf` after min-max scaling. -/
def vecOnlyScaled : DataFrame :=
  { schema := ["x_vec", "x_scaled"],
    rows := [[Cell.vec [0], Cell.vec [0]], [Cell.vec [2], Cell.vec [1]]] }

/-- The empty dataframe: `MinMaxScaler.fit` fails on it. -/
def emptyDf : DataFrame := { schema := [], rows := [] }

/-- `constRaw` after assembly and scaling: the constant `DR` dimension is
mapped to 0.5 in every row. -/
def constScaled : DataFrame :=
  { schema := ["DR", "CLASS", "NSP", "x_vec", "x_scaled"],
    rows := [[Cell.num 0, Cell.num 1, Cell.num 1, Cell.vec [0],
              Cell.vec [1 / 2]],
             [Cell.num 0, Cell.num 2, Cell.num 1, Cell.vec [0],
              Cell.vec [1 / 2]]] }

/-- The training part of the seeded split of `constRaw` (its row at
index 1, whose seeded draw falls below 15/22). -/
def constTrain : DataFrame :=
  { schema := ["DR", "CLASS", "NSP", "x_vec", "x_scaled"],
    rows := [[Cell.num 0, Cell.num 2, Cell.num 1, Cell.vec [0],
              Cell.vec [1 / 2]]] }

/-- The test part of the seeded split of `constRaw` (its row at index 0,
whose seeded draw falls above 15/22). -/
def constTest : DataFrame :=
  { schema := ["DR", "CLASS", "NSP", "x_vec", "x_scaled"],
    rows := [[Cell.num 0, Cell.num 1, Cell.num 1, Cell.vec [0],
              Cell.vec [1 / 2]]] }

/-- The `training` table derived from `constRaw`: only the `x_scaled`
column of the training part. -/
def constTraining : DataFrame :=
  { schema := ["x_scaled"], rows := [[Cell.vec [1 / 2]]] }

/-! ### Helper lemmas -/

theorem mapM_ok_map {α β : Type} (f : α → Except String β) (g : α → β) :
    ∀ (l : List α), (∀ a ∈ l, f a = Except.ok (g a)) →
      l.mapM f = Except.ok (l.map g) := by
  intro l
  induction l with
  | nil => intro _; rfl
  | cons a l ih =>
      intro h
      have ha := h a (List.mem_cons_self a l)
      have hl := ih (fun b hb => h b (List.mem_cons_of_mem a hb))
      simp only [List.mapM_cons, ha, hl, List.map_cons]
      rfl

theorem zip_filter_eq (p : String → Bool) :
    ∀ (s : List String) (r : List Cell),
      (s.filter p).zip (((s.zip r).filter (fun q => p q.1)).map Prod.snd) =
        (s.zip r).filter (fun q => p q.1) := by
  intro s
  induction s with
  | nil => intro r; simp
  | cons a s ih =>
      intro r
      cases r with
      | nil => simp
      | cons c r =>
          by_cases hp : p a
          · simp only [List.zip_cons_cons, List.filter_cons, hp, if_pos,
              List.map_cons, ih r]
          · simp only [List.zip_cons_cons, List.filter_cons, hp,
              Bool.false_eq_true, if_neg, not_false_iff, ih r]

theorem mem_of_mem_prunePairs (names : List String) (s : List String)
    (r : List Cell) (c : Cell)
    (h : c ∈ (prunePairs names s r).map Prod.snd) : c ∈ r := by
  rcases List.mem_map.mp h with ⟨q, hq, rfl⟩
  exact List.of_mem_zip (List.mem_of_mem_filter hq) |>.2

theorem getLastD_append_singleton (l : List String) (a d : String) :
    (l ++ [a]).getLastD d = a := by
  induction l with
  | nil => rfl
  | cons b l ih =>
      cases l with
      | nil => rfl
      | cons c l => simpa using ih

theorem splitRows_count (rnd : ℕ → ℚ) (t : ℚ) :
    ∀ (i : ℕ) (rs : List (List Cell)) (x : List Cell),
      (splitRows rnd t i rs).1.count x + (splitRows rnd t i rs).2.count x =
        rs.count x := by
  intro i rs
  induction rs generalizing i with
  | nil => intro x; rfl
  | cons r rs ih =>
      intro x
      have hih := ih (i + 1) x
      by_cases hr : rnd i < t
      · simp only [splitRows, if_pos hr, List.count_cons]
        omega
      · simp only [splitRows, if_neg hr, List.count_cons]
        omega

theorem splitRows_length (rnd : ℕ → ℚ) (t : ℚ) :
    ∀ (i : ℕ) (rs : List (List Cell)),
      (splitRows rnd t i rs).1.length + (splitRows rnd t i rs).2.length =
        rs.length := by
  intro i rs
  induction rs generalizing i with
  | nil => rfl
  | cons r rs ih =>
      have hih := ih (i + 1)
      by_cases hr : rnd i < t
      · simp only [splitRows, if_pos hr, List.length_cons]
        omega
      · simp only [splitRows, if_neg hr, List.length_cons]
        omega

theorem splitRows_fst_mem (rnd : ℕ → ℚ) (t : ℚ) :
    ∀ (i : ℕ) (rs : List (List Cell)) (r : List Cell),
      r ∈ (splitRows rnd t i rs).1 → r ∈ rs := by
  intro i rs
  induction rs generalizing i with
  | nil => intro r h; exact absurd h (List.not_mem_nil r)
  | cons s rs ih =>
      intro r h
      by_cases hr : rnd i < t
      · rw [splitRows, if_pos hr] at h
        rcases List.mem_cons.mp h with h | h
        · exact List.mem_cons.mpr (Or.inl h)
        · exact List.mem_cons.mpr (Or.inr (ih (i + 1) r h))
      · rw [splitRows, if_neg hr] at h
        exact List.mem_cons.mpr (Or.inr (ih (i + 1) r h))

theorem splitRows_snd_mem (rnd : ℕ → ℚ) (t : ℚ) :
    ∀ (i : ℕ) (rs : List (List Cell)) (r : List Cell),
      r ∈ (splitRows rnd t i rs).2 → r ∈ rs := by
  intro i rs
  induction rs generalizing i with
  | nil => intro r h; exact absurd h (List.not_mem_nil r)
  | cons s rs ih =>
      intro r h
      by_cases hr : rnd i < t
      · rw [splitRows, if_pos hr] at h
        exact List.mem_cons.mpr (Or.inr (ih (i + 1) r h))
      · rw [splitRows, if_neg hr] at h
        rcases List.mem_cons.mp h with h | h
        · exact List.mem_cons.mpr (Or.inl h)
        · exact List.mem_cons.mpr (Or.inr (ih (i + 1) r h))

theorem scaleVec_get :
    ∀ (mn mx x : List ℚ) (j : ℕ) (h : j < (scaleVec mn mx x).length)
      (h1 : j < mn.length) (h2 : j < mx.length) (h3 : j < x.length),
      (scaleVec mn mx x).get ⟨j, h⟩ =
        scaleCell (mn.get ⟨j, h1⟩) (mx.get ⟨j, h2⟩) (x.get ⟨j, h3⟩) := by
  intro mn
  induction mn with
  | nil => intro mx x j h h1; exact absurd h1 (Nat.not_lt_zero j)
  | cons a mn ih =>
      intro mx x j h h1 h2 h3
      cases mx with
      | nil => exact absurd h2 (Nat.not_lt_zero j)
      | cons b mx =>
          cases x with
          | nil => exact absurd h3 (Nat.not_lt_zero j)
          | cons c x =>
              cases j with
              | zero => rfl
              | succ j =>
                  exact ih mx x j (Nat.lt_of_succ_lt_succ h)
                    (Nat.lt_of_succ_lt_succ h1) (Nat.lt_of_succ_lt_succ h2)
                    (Nat.lt_of_succ_lt_succ h3)

theorem scaleVec_length :
    ∀ (mn mx x : List ℚ),
      (scaleVec mn mx x).length =
        min mn.length (min mx.length x.length) := by
  intro mn
  induction mn with
  | nil => intro mx x; simp [scaleVec]
  | cons a mn ih =>
      intro mx x
      cases mx with
      | nil => simp [scaleVec]
      | cons b mx =>
          cases x with
          | nil => simp [scaleVec]
          | cons c x => simp [scaleVec, ih mx x]; omega

theorem foldl_zipWith_min_le_acc :
    ∀ (vs : List (List ℚ)) (acc : List ℚ) (j : ℕ)
      (h : j < (vs.foldl (fun a w => List.zipWith min a w) acc).length),
      ∃ ha : j < acc.length,
        (vs.foldl (fun a w => List.zipWith min a w) acc).get ⟨j, h⟩ ≤
          acc.get ⟨j, ha⟩ := by
  intro vs
  induction vs with
  | nil => intro acc j h; exact ⟨h, le_refl _⟩
  | cons w vs ih =>
      intro acc j h
      obtain ⟨ha, hle⟩ := ih (List.zipWith min acc w) j h
      have hacc : j < acc.length := by
        have := ha
        rw [List.length_zipWith] at this
        omega
      refine ⟨hacc, le_trans hle ?_⟩
      have : (List.zipWith min acc w).get ⟨j, ha⟩ =
          min (acc.get ⟨j, hacc⟩) (w.get ⟨j, by
            have := ha; rw [List.length_zipWith] at this; omega⟩) := by
        simp [List.get_eq_getElem, List.getElem_zipWith]
      rw [this]
      exact min_le_left _ _

theorem foldl_zipWith_min_le_mem :
    ∀ (vs : List (List ℚ)) (acc v : List ℚ), v ∈ vs →
      ∀ (j : ℕ) (h : j < (vs.foldl (fun a w => List.zipWith min a w) acc).length)
        (hv : j < v.length),
        (vs.foldl (fun a w => List.zipWith min a w) acc).get ⟨j, h⟩ ≤
          v.get ⟨j, hv⟩ := by
  intro vs
  induction vs with
  | nil => intro acc v hv; exact absurd hv (List.not_mem_nil v)
  | cons w vs ih =>
      intro acc v hv j h hvj
      rcases List.mem_cons.mp hv with rfl | hv
      · obtain ⟨ha, hle⟩ := foldl_zipWith_min_le_acc vs (List.zipWith min acc v) j h
        refine le_trans hle ?_
        have : (List.zipWith min acc v).get ⟨j, ha⟩ =
            min (acc.get ⟨j, by
              have := ha; rw [List.length_zipWith] at this; omega⟩)
              (v.get ⟨j, hvj⟩) := by
          simp [List.get_eq_getElem, List.getElem_zipWith]
        rw [this]
        exact min_le_right _ _
      · exact ih (List.zipWith min acc w) v hv j h hvj

theorem foldl_zipWith_min_attained :
    ∀ (vs : List (List ℚ)) (acc : List ℚ) (j : ℕ)
      (h : j < (vs.foldl (fun a w => List.zipWith min a w) acc).length),
      ∃ u, (u = acc ∨ u ∈ vs) ∧ ∃ hu : j < u.length,
        (vs.foldl (fun a w => List.zipWith min a w) acc).get ⟨j, h⟩ =
          u.get ⟨j, hu⟩ := by
  intro vs
  induction vs with
  | nil => intro acc j h; exact ⟨acc, Or.inl rfl, h, rfl⟩
  | cons w vs ih =>
      intro acc j h
      obtain ⟨u, hu, huj, heq⟩ := ih (List.zipWith min acc w) j h
      rcases hu with rfl | hu
      · have hacc : j < acc.length := by
          have := huj; rw [List.length_zipWith] at this; omega
        have hw : j < w.length := by
          have := huj; rw [List.length_zipWith] at this; omega
        have hmin : (List.zipWith min acc w).get ⟨j, huj⟩ =
            min (acc.get ⟨j, hacc⟩) (w.get ⟨j, hw⟩) := by
          simp [List.get_eq_getElem, List.getElem_zipWith]
        rcases min_choice (acc.get ⟨j, hacc⟩) (w.get ⟨j, hw⟩) with hc | hc
        · exact ⟨acc, Or.inl rfl, hacc, heq.trans (hmin.trans hc)⟩
        · exact ⟨w, Or.inr (List.mem_cons_self w vs), hw, heq.trans (hmin.trans hc)⟩
      · exact ⟨u, Or.inr (List.mem_cons_of_mem w hu), huj, heq⟩

theorem fitMin_le (vecs : List (List ℚ)) (mn : List ℚ)
    (h : fitMin vecs = some mn) (v : List ℚ) (hv : v ∈ vecs) (j : ℕ)
    (hj : j < mn.length) (hjv : j < v.length) :
    mn.get ⟨j, hj⟩ ≤ v.get ⟨j, hjv⟩ := by
  cases vecs with
  | nil => exact absurd h (by simp [fitMin])
  | cons v0 vs =>
      have hmn : mn = vs.foldl (fun a w => List.zipWith min a w) v0 := by
        have := h
        simp only [fitMin, Option.some_inj] at this
        exact this.symm
      subst hmn
      rcases List.mem_cons.mp hv with rfl | hv
      · obtain ⟨ha, hle⟩ := foldl_zipWith_min_le_acc vs v j hj
        exact le_trans hle (le_of_eq (by congr))
      · exact foldl_zipWith_min_le_mem vs v0 v hv j hj hjv

theorem fitMin_attained (vecs : List (List ℚ)) (mn : List ℚ)
    (h : fitMin vecs = some mn) (j : ℕ) (hj : j < mn.length) :
    ∃ v ∈ vecs, ∃ hv : j < v.length, mn.get ⟨j, hj⟩ = v.get ⟨j, hv⟩ := by
  cases vecs with
  | nil => exact absurd h (by simp [fitMin])
  | cons v0 vs =>
      have hmn : mn = vs.foldl (fun a w => List.zipWith min a w) v0 := by
        have := h
        simp only [fitMin, Option.some_inj] at this
        exact this.symm
      subst hmn
      obtain ⟨u, hu, huj, heq⟩ := foldl_zipWith_min_attained vs v0 j hj
      rcases hu with rfl | hu
      · exact ⟨u, List.mem_cons_self u vs, huj, heq⟩
      · exact ⟨u, List.mem_cons_of_mem v0 hu, huj, heq⟩

theorem foldl_zipWith_max_ge_acc :
    ∀ (vs : List (List ℚ)) (acc : List ℚ) (j : ℕ)
      (h : j < (vs.foldl (fun a w => List.zipWith max a w) acc).length),
      ∃ ha : j < acc.length,
        acc.get ⟨j, ha⟩ ≤
          (vs.foldl (fun a w => List.zipWith max a w) acc).get ⟨j, h⟩ := by
  intro vs
  induction vs with
  | nil => intro acc j h; exact ⟨h, le_refl _⟩
  | cons w vs ih =>
      intro acc j h
      obtain ⟨ha, hle⟩ := ih (List.zipWith max acc w) j h
      have hacc : j < acc.length := by
        have := ha
        rw [List.length_zipWith] at this
        omega
      refine ⟨hacc, le_trans ?_ hle⟩
      have : (List.zipWith max acc w).get ⟨j, ha⟩ =
          max (acc.get ⟨j, hacc⟩) (w.get ⟨j, by
            have := ha; rw [List.length_zipWith] at this; omega⟩) := by
        simp [List.get_eq_getElem, List.getElem_zipWith]
      rw [this]
      exact le_max_left _ _

theorem foldl_zipWith_max_ge_mem :
    ∀ (vs : List (List ℚ)) (acc v : List ℚ), v ∈ vs →
      ∀ (j : ℕ) (h : j < (vs.foldl (fun a w => List.zipWith max a w) acc).length)
        (hv : j < v.length),
        v.get ⟨j, hv⟩ ≤
          (vs.foldl (fun a w => List.zipWith max a w) acc).get ⟨j, h⟩ := by
  intro vs
  induction vs with
  | nil => intro acc v hv; exact absurd hv (List.not_mem_nil v)
  | cons w vs ih =>
      intro acc v hv j h hvj
      rcases List.mem_cons.mp hv with rfl | hv
      · obtain ⟨ha, hle⟩ := foldl_zipWith_max_ge_acc vs (List.zipWith max acc v) j h
        refine le_trans ?_ hle
        have : (List.zipWith max acc v).get ⟨j, ha⟩ =
            max (acc.get ⟨j, by
              have := ha; rw [List.length_zipWith] at this; omega⟩)
              (v.get ⟨j, hvj⟩) := by
          simp [List.get_eq_getElem, List.getElem_zipWith]
        rw [this]
        exact le_max_right _ _
      · exact ih (List.zipWith max acc w) v hv j h hvj

theorem foldl_zipWith_max_attained :
    ∀ (vs : List (List ℚ)) (acc : List ℚ) (j : ℕ)
      (h : j < (vs.foldl (fun a w => List.zipWith max a w) acc).length),
      ∃ u, (u = acc ∨ u ∈ vs) ∧ ∃ hu : j < u.length,
        (vs.foldl (fun a w => List.zipWith max a w) acc).get ⟨j, h⟩ =
          u.get ⟨j, hu⟩ := by
  intro vs
  induction vs with
  | nil => intro acc j h; exact ⟨acc, Or.inl rfl, h, rfl⟩
  | cons w vs ih =>
      intro acc j h
      obtain ⟨u, hu, huj, heq⟩ := ih (List.zipWith max acc w) j h
      rcases hu with rfl | hu
      · have hacc : j < acc.length := by
          have := huj; rw [List.length_zipWith] at this; omega
        have hw : j < w.length := by
          have := huj; rw [List.length_zipWith] at this; omega
        have hmax : (List.zipWith max acc w).get ⟨j, huj⟩ =
            max (acc.get ⟨j, hacc⟩) (w.get ⟨j, hw⟩) := by
          simp [List.get_eq_getElem, List.getElem_zipWith]
        rcases max_choice (acc.get ⟨j, hacc⟩) (w.get ⟨j, hw⟩) with hc | hc
        · exact ⟨acc, Or.inl rfl, hacc, heq.trans (hmax.trans hc)⟩
        · exact ⟨w, Or.inr (List.mem_cons_self w vs), hw, heq.trans (hmax.trans hc)⟩
      · exact ⟨u, Or.inr (List.mem_cons_of_mem w hu), huj, heq⟩

theorem fitMax_ge (vecs : List (List ℚ)) (mx : List ℚ)
    (h : fitMax vecs = some mx) (v : List ℚ) (hv : v ∈ vecs) (j : ℕ)
    (hj : j < mx.length) (hjv : j < v.length) :
    v.get ⟨j, hjv⟩ ≤ mx.get ⟨j, hj⟩ := by
  cases vecs with
  | nil => exact absurd h (by simp [fitMax])
  | cons v0 vs =>
      have hmx : mx = vs.foldl (fun a w => List.zipWith max a w) v0 := by
        have := h
        simp only [fitMax, Option.some_inj] at this
        exact this.symm
      subst hmx
      rcases List.mem_cons.mp hv with rfl | hv
      · obtain ⟨ha, hle⟩ := foldl_zipWith_max_ge_acc vs v j hj
        exact le_trans (le_of_eq (by congr)) hle
      · exact foldl_zipWith_max_ge_mem vs v0 v hv j hj hjv

theorem fitMax_attained (vecs : List (List ℚ)) (mx : List ℚ)
    (h : fitMax vecs = some mx) (j : ℕ) (hj : j < mx.length) :
    ∃ v ∈ vecs, ∃ hv : j < v.length, mx.get ⟨j, hj⟩ = v.get ⟨j, hv⟩ := by
  cases vecs with
  | nil => exact absurd h (by simp [fitMax])
  | cons v0 vs =>
      have hmx : mx = vs.foldl (fun a w => List.zipWith max a w) v0 := by
        have := h
        simp only [fitMax, Option.some_inj] at this
        exact this.symm
      subst hmx
      obtain ⟨u, hu, huj, heq⟩ := foldl_zipWith_max_attained vs v0 j hj
      rcases hu with rfl | hu
      · exact ⟨u, List.mem_cons_self u vs, huj, heq⟩
      · exact ⟨u, List.mem_cons_of_mem v0 hu, huj, heq⟩

theorem flatten_map_singleton {α β : Type} (g : α → β) :
    ∀ (l : List α), (l.map (fun x => [g x])).flatten = l.map g := by
  intro l
  induction l with
  | nil => rfl
  | cons a l ih => simp [ih]

theorem mapM_congr {α β : Type} (f g : α → Except String β) :
    ∀ (l : List α), (∀ x ∈ l, f x = g x) → l.mapM f = l.mapM g := by
  intro l
  induction l with
  | nil => intro _; rfl
  | cons a l ih =>
      intro h
      rw [List.mapM_cons, List.mapM_cons, h a (List.mem_cons_self a l),
        ih (fun x hx => h x (List.mem_cons_of_mem a hx))]

theorem getCell_cons_ne (a : String) (c : Cell) (s : List String)
    (r : List Cell) (x : String) (hx : x ≠ a) :
    getCell (a :: s) (c :: r) x = getCell s r x := by
  unfold getCell
  rw [List.zip_cons_cons, List.find?_cons_of_neg]
  simp [Ne.symm hx]

theorem mapM_assemble_filter (p : String → Bool) :
    ∀ (s : List String) (r : List Cell), s.Nodup → r.length = s.length →
      (∀ c ∈ r, ∃ q : ℚ, c = Cell.num q) →
      (s.filter p).mapM (fun x => (getCell s r x).bind cellContents) =
        Except.ok (((s.zip r).filter (fun pr => p pr.1)).map
          (fun pr => [numVal pr.2])) := by
  intro s
  induction s with
  | nil =>
      intro r _ hlen _
      cases r with
      | nil => rfl
      | cons c r => simp at hlen
  | cons a s ih =>
      intro r hnd hlen hnum
      cases r with
      | nil => exact absurd hlen.symm (by simp)
      | cons c r =>
          have hanotin : a ∉ s := (List.nodup_cons.mp hnd).1
          have hndtail : s.Nodup := (List.nodup_cons.mp hnd).2
          have hlen' : r.length = s.length := by simpa using hlen
          have hnum' : ∀ d ∈ r, ∃ q : ℚ, d = Cell.num q :=
            fun d hd => hnum d (List.mem_cons_of_mem c hd)
          obtain ⟨q, hq⟩ := hnum c (List.mem_cons_self c r)
          subst hq
          have hcongr :
              (s.filter p).mapM
                  (fun x => (getCell (a :: s) (Cell.num q :: r) x).bind
                    cellContents) =
                (s.filter p).mapM
                  (fun x => (getCell s r x).bind cellContents) := by
            refine mapM_congr _ _ _ (fun x hx => ?_)
            have hxs : x ∈ s := List.mem_of_mem_filter hx
            have hxa : x ≠ a := fun h => hanotin (h ▸ hxs)
            rw [getCell_cons_ne a (Cell.num q) s r x hxa]
          have hih := ih r hndtail hlen' hnum'
          have hheada : getCell (a :: s) (Cell.num q :: r) a =
              Except.ok (Cell.num q) := by
            unfold getCell
            rw [List.zip_cons_cons, List.find?_cons_of_pos]
            simp
          by_cases hp : p a
          · rw [List.filter_cons_of_pos (by simpa using hp), List.mapM_cons,
              hheada]
            show Except.bind (cellContents (Cell.num q)) _ = _
            show Except.bind (Except.ok [q]) _ = _
            rw [Except.bind]
            show Except.bind ((s.filter p).mapM
              (fun x => (getCell (a :: s) (Cell.num q :: r) x).bind
                cellContents)) _ = _
            rw [hcongr, hih, Except.bind]
            rw [List.zip_cons_cons, List.filter_cons_of_pos (by simpa using hp),
              List.map_cons]
            rfl
          · rw [List.filter_cons_of_neg (by simpa using hp), hcongr, hih,
              List.zip_cons_cons,
              List.filter_cons_of_neg (by simpa using hp)]

theorem assembleRow_filter (p : String → Bool) (s : List String)
    (r : List Cell) (hnd : s.Nodup) (hlen : r.length = s.length)
    (hnum : ∀ c ∈ r, ∃ q : ℚ, c = Cell.num q) :
    assembleRow (s.filter p) s r =
      Except.ok (((s.zip r).filter (fun pr => p pr.1)).map
        (fun pr => numVal pr.2)) := by
  unfold assembleRow
  rw [mapM_assemble_filter p s r hnd hlen hnum]
  show Except.ok ((((s.zip r).filter (fun pr => p pr.1)).map
    (fun pr => [numVal pr.2])).flatten) = _
  exact congrArg Except.ok (flatten_map_singleton _ _)

theorem minMax_ok_shape (inp out : String) (df sd : DataFrame)
    (h : minMaxScalerFitTransform inp out df = Except.ok sd) :
    ∃ vecs mn mx,
      df.rows.mapM (fun r => getVec df.schema r inp) = Except.ok vecs ∧
      fitMin vecs = some mn ∧ fitMax vecs = some mx ∧
      sd = { schema := df.schema ++ [out],
             rows := (df.rows.zip vecs).map
               (fun p => p.1 ++ [Cell.vec (scaleVec mn mx p.2)]) } := by
  unfold minMaxScalerFitTransform at h
  cases hm : df.rows.mapM (fun r => getVec df.schema r inp) with
  | error e => rw [hm] at h; exact absurd h (by simp [Except.bind])
  | ok vecs =>
      rw [hm] at h
      simp only [Except.bind] at h
      cases vecs with
      | nil => exact absurd h (by simp [fitMin, fitMax])
      | cons v vs =>
          refine ⟨v :: vs, ?_⟩
          rw [show fitMin (v :: vs) =
                some (vs.foldl (fun acc w => List.zipWith min acc w) v) from rfl,
              show fitMax (v :: vs) =
                some (vs.foldl (fun acc w => List.zipWith max acc w) v) from rfl]
            at h
          simp only [Except.ok.injEq] at h
          exact ⟨_, _, hm ▸ rfl, rfl, rfl, h.symm⟩

/-! ### Claim theorems -/

/-- C3: the notebook's final split/label-extraction cell is incomplete:
the assignment to `labels` has an empty right-hand side, so the cell is a
syntax error and cannot run to completion (the notebook as committed has
no defined end-to-end behavior). -/
theorem final_cell_incomplete :
    (∃ s ∈ finalCellStmts, s.targets = ["labels"] ∧ s.rhs = none) ∧
    runCell finalCellStmts = Except.error "SyntaxError: invalid syntax" ∧
    ∀ readResult rnd, runSucceeds (notebookRun readResult rnd) = false := by
  refine ⟨⟨{ targets := ["labels"], rhs := none }, by decide, rfl, rfl⟩, rfl, ?_⟩
  intro readResult rnd
  cases readResult with
  | error e => rfl
  | ok df0 =>
      show runSucceeds ((splitData rnd df0).bind fun p =>
        Except.map (fun _ => p) (runCell finalCellStmts)) = false
      cases hs : splitData rnd df0 with
      | error e => rfl
      | ok p => rfl

/-- C9: the split weights 0.75 and 0.35 sum to 1.10, not 1; `randomSplit`
normalizes them, so the expected fractions of the two subsets are 15/22
and 7/22 (the threshold actually used on the per-row draws is 15/22), not
75% and 35%, nor 75% and 25%. -/
theorem split_weights_sum_normalized :
    splitWeights.sum = 11 / 10 ∧ ((11 : ℚ) / 10) ≠ 1 ∧
    normWeights splitWeights = [15 / 22, 7 / 22] ∧
    (75 : ℚ) / 100 / ((75 : ℚ) / 100 + (35 : ℚ) / 100) = 15 / 22 ∧
    ((15 : ℚ) / 22) ≠ 75 / 100 ∧ ((7 : ℚ) / 22) ≠ 35 / 100 ∧
    ((7 : ℚ) / 22) ≠ 25 / 100 := by
  refine ⟨?_, ?_, ?_, ?_, ?_, ?_, ?_⟩ <;>
    norm_num [splitWeights, normWeights, List.sum_cons, List.sum_nil]

/-- C7: the notebook has no error handling: an error produced by the
underlying library (e.g. a failed `spark.read`, or a failing stage on the
loaded data) propagates through the whole run unchanged — no recovery
branch, no translation. -/
theorem errors_propagate_untranslated :
    (∀ (e : String) (rnd : ℕ → ℚ),
      notebookRun (Except.error e) rnd = Except.error e) ∧
    (∀ (e : String) (rnd : ℕ → ℚ) (df0 : DataFrame),
      scaledData df0 = Except.error e →
      notebookRun (Except.ok df0) rnd = Except.error e) := by
  constructor
  · intro e rnd; rfl
  · intro e rnd df0 h
    show ((splitData rnd df0).bind fun p =>
      Except.map (fun _ => p) (runCell finalCellStmts)) = Except.error e
    unfold splitData
    rw [h]
    rfl

/-- Witness for C7: a failed read propagates verbatim, and the scaler's
own error on the empty dataset propagates verbatim. -/
theorem errors_propagate_untranslated_witness :
    notebookRun (Except.error "file not found") (fun _ => 0) =
      Except.error "file not found" ∧
    notebookRun (Except.ok emptyDf) (fun _ => 0) =
      Except.error "MinMaxScaler: empty dataset" :=
  ⟨errors_propagate_untranslated.1 "file not found" (fun _ => 0),
   errors_propagate_untranslated.2 "MinMaxScaler: empty dataset"
     (fun _ => 0) emptyDf rfl⟩

/-- C5: every row that reaches the feature-assembly step has no missing
values: the null-drop runs before the two column drops and the assembler,
so for every input dataset every cell of every row of the assembler's
input dataframe is non-null. -/
theorem no_missing_values_reach_assembler (df0 : DataFrame) :
    ∀ r ∈ (prunedDf df0).rows, ∀ c ∈ r, c ≠ Cell.null := by
  intro r hr c hc
  rcases List.mem_map.mp hr with ⟨r1, hr1, rfl⟩
  rcases List.mem_map.mp hr1 with ⟨r0, hr0, rfl⟩
  have hc1 := mem_of_mem_prunePairs _ _ _ _ hc
  have hc0 := mem_of_mem_prunePairs _ _ _ _ hc1
  have hfil := List.mem_filter.mp hr0
  have hall := hfil.2
  rw [List.all_eq_true] at hall
  simpa using hall c hc0

/-- Witness for C5: a concrete cell of a concrete row of the pruned
sample dataset is non-null. -/
theorem no_missing_values_reach_assembler_witness :
    Cell.num (0 : ℚ) ≠ Cell.null :=
  no_missing_values_reach_assembler sampleRaw
    [Cell.num 0, Cell.num 0, Cell.num 1, Cell.num 1] (by decide)
    (Cell.num 0) (by decide)

/-- C6: the two `drop` calls remove exactly the fixed, hardcoded list of
thirteen column names; every other column, its order, and every row's
values in the remaining columns are unchanged (pairing the pruned schema
with a pruned row gives back exactly the surviving (name, value) pairs of
the original row, in order). -/
theorem pruning_drops_exactly_fixed_columns (df0 : DataFrame) :
    metaCols ++ oneHotCols =
      ["FileName", "Date", "SegFile", "A", "B29", "C", "D", "E32", "AD",
       "DE", "LD", "FS", "SUSP"] ∧
    (prunedDf df0).schema =
      (dropna df0).schema.filter
        (fun c => !((metaCols ++ oneHotCols).contains c)) ∧
    (prunedDf df0).rows =
      (dropna df0).rows.map (fun r =>
        (prunePairs (metaCols ++ oneHotCols) (dropna df0).schema r).map
          Prod.snd) ∧
    ∀ r : List Cell,
      (prunedDf df0).schema.zip
          ((prunePairs (metaCols ++ oneHotCols) (dropna df0).schema r).map
            Prod.snd) =
        prunePairs (metaCols ++ oneHotCols) (dropna df0).schema r := by
  have hpred : ∀ c : String,
      (!(oneHotCols.contains c) && !(metaCols.contains c)) =
        !((metaCols ++ oneHotCols).contains c) := by
    intro c
    simp [Bool.not_or, Bool.and_comm]
  have hschema : (prunedDf df0).schema =
      (dropna df0).schema.filter
        (fun c => !((metaCols ++ oneHotCols).contains c)) := by
    show (((dropna df0).schema.filter (fun c => !(metaCols.contains c))).filter
        (fun c => !(oneHotCols.contains c))) = _
    rw [List.filter_filter]
    exact List.filter_congr (fun c _ => hpred c)
  refine ⟨rfl, hschema, ?_, ?_⟩
  · show ((dropna df0).rows.map _).map _ = _
    rw [List.map_map]
    refine List.map_congr_left ?_
    intro r _
    show (prunePairs oneHotCols
        ((dropna df0).schema.filter (fun c => !(metaCols.contains c)))
        ((prunePairs metaCols (dropna df0).schema r).map Prod.snd)).map
          Prod.snd = _
    unfold prunePairs
    rw [zip_filter_eq (fun c => !(metaCols.contains c)) (dropna df0).schema r,
      List.filter_filter]
    congr 1
    exact List.filter_congr (fun q _ => hpred q.1)
  · intro r
    rw [hschema]
    unfold prunePairs
    exact zip_filter_eq (fun c => !((metaCols ++ oneHotCols).contains c)) _ r

/-- C2: the seeded `randomSplit([0.75, 0.35], 23)` call partitions the rows
of the scaled dataset into exactly two parts — disjoint and jointly
exhaustive in the multiset sense (for every row, its multiplicities in the
two parts sum to its multiplicity in the input), both parts keeping the
input's schema and drawing only rows of the input — and is deterministic:
any second run on the same input yields the same two parts (the draws are
a pure function of the fixed seed 23). -/
theorem randomSplit_partitions_rows (df0 td ts : DataFrame)
    (h : splitData (seededDraw splitSeed) df0 = Except.ok (td, ts)) :
    ∃ sd, scaledData df0 = Except.ok sd ∧
      td.schema = sd.schema ∧ ts.schema = sd.schema ∧
      (∀ r : List Cell, td.rows.count r + ts.rows.count r =
        sd.rows.count r) ∧
      td.rows.length + ts.rows.length = sd.rows.length ∧
      (∀ r ∈ td.rows, r ∈ sd.rows) ∧ (∀ r ∈ ts.rows, r ∈ sd.rows) ∧
      ∀ td2 ts2, splitData (seededDraw splitSeed) df0 = Except.ok (td2, ts2) →
        td2 = td ∧ ts2 = ts := by
  cases hsd : scaledData df0 with
  | error e =>
      unfold splitData at h
      rw [hsd] at h
      exact absurd h (by simp [Except.map])
  | ok sd =>
      unfold splitData at h
      rw [hsd] at h
      simp only [Except.map, Except.ok.injEq] at h
      have htd : td = { sd with rows := (splitRows (seededDraw splitSeed)
          ((75 : ℚ) / 100 / ((75 : ℚ) / 100 + (35 : ℚ) / 100)) 0
          sd.rows).1 } := (congrArg Prod.fst h).symm
      have hts : ts = { sd with rows := (splitRows (seededDraw splitSeed)
          ((75 : ℚ) / 100 / ((75 : ℚ) / 100 + (35 : ℚ) / 100)) 0
          sd.rows).2 } := (congrArg Prod.snd h).symm
      subst htd
      subst hts
      refine ⟨sd, rfl, rfl, rfl, ?_, ?_, ?_, ?_, ?_⟩
      · intro r
        exact splitRows_count _ _ 0 sd.rows r
      · exact splitRows_length _ _ 0 sd.rows
      · intro r hr
        exact splitRows_fst_mem _ _ 0 sd.rows r hr
      · intro r hr
        exact splitRows_snd_mem _ _ 0 sd.rows r hr
      · intro td2 ts2 h2
        unfold splitData at h2
        rw [hsd] at h2
        simp only [Except.map, Except.ok.injEq] at h2
        exact ⟨(congrArg Prod.fst h2).symm, (congrArg Prod.snd h2).symm⟩

/-- C8: a feature dimension whose observed minimum equals its observed
maximum (a constant column, like `DR` in the committed run) is mapped to
0.5 by the scaler — not through the formula `(x - min)/(max - min)` — so
the output is defined (no division by zero) and lies in [0, 1]; moreover
min = max at a dimension forces every value of that dimension to equal the
minimum (the column really is constant). -/
theorem constant_dimension_scales_to_half (vecs : List (List ℚ))
    (mn mx : List ℚ) (hmn : fitMin vecs = some mn)
    (hmx : fitMax vecs = some mx) (j : ℕ) (hjm : j < mn.length)
    (hjx : j < mx.length) (heq : mn.get ⟨j, hjm⟩ = mx.get ⟨j, hjx⟩)
    (v : List ℚ) (hv : v ∈ vecs) (hjv : j < v.length)
    (hs : j < (scaleVec mn mx v).length) :
    (scaleVec mn mx v).get ⟨j, hs⟩ = 1 / 2 ∧
    v.get ⟨j, hjv⟩ = mn.get ⟨j, hjm⟩ ∧
    (0 : ℚ) ≤ (scaleVec mn mx v).get ⟨j, hs⟩ ∧
    (scaleVec mn mx v).get ⟨j, hs⟩ ≤ 1 := by
  have hval : (scaleVec mn mx v).get ⟨j, hs⟩ = 1 / 2 := by
    rw [scaleVec_get mn mx v j hs hjm hjx hjv, scaleCell, if_pos heq]
  have hle := fitMin_le vecs mn hmn v hv j hjm hjv
  have hge := fitMax_ge vecs mx hmx v hv j hjx hjv
  refine ⟨hval, ?_, ?_, ?_⟩
  · exact le_antisymm (heq ▸ hge) hle
  · rw [hval]; norm_num
  · rw [hval]; norm_num

/-- Witness for C8: on the constant vector list [[5], [5]] the scaler
outputs 0.5 at dimension 0. -/
theorem constant_dimension_scales_to_half_witness :
    (scaleVec [5] [5] [5]).get ⟨0, by norm_num [scaleVec]⟩ = 1 / 2 ∧
    ([5] : List ℚ).get ⟨0, by norm_num⟩ = ([5] : List ℚ).get ⟨0, by norm_num⟩ ∧
    (0 : ℚ) ≤ (scaleVec [5] [5] [5]).get ⟨0, by norm_num [scaleVec]⟩ ∧
    (scaleVec [5] [5] [5]).get ⟨0, by norm_num [scaleVec]⟩ ≤ 1 :=
  constant_dimension_scales_to_half [[5], [5]] [5] [5] rfl rfl 0
    (by norm_num) (by norm_num) rfl [5] (by simp) (by norm_num)
    (by norm_num [scaleVec])

/-- C10: the derived `training` table selects only the last column of the
split training data, which is always the scaled feature-vector column
`x_scaled`; in particular its schema contains neither label column
(`CLASS` nor `NSP`), whatever the input dataset. -/
theorem training_selects_only_scaled_features (rnd : ℕ → ℚ)
    (df0 tr : DataFrame) (h : training rnd df0 = Except.ok tr) :
    tr.schema = ["x_scaled"] ∧ "CLASS" ∉ tr.schema ∧ "NSP" ∉ tr.schema ∧
    ∃ td, train_data rnd df0 = Except.ok td ∧ lastColumn td = "x_scaled" ∧
      tr = selectCol "x_scaled" td := by
  cases hsd : scaledData df0 with
  | error e =>
      unfold training train_data splitData at h
      rw [hsd] at h
      exact absurd h (by simp [Except.map])
  | ok sd =>
      have hsd2 := hsd
      unfold scaledData at hsd2
      cases htt : temp_train df0 with
      | error e => rw [htt] at hsd2; exact absurd hsd2 (by simp [Except.bind])
      | ok tt =>
          rw [htt] at hsd2
          simp only [Except.bind] at hsd2
          obtain ⟨vecs, mn, mx, _, _, _, hshape⟩ :=
            minMax_ok_shape "x_vec" "x_scaled" tt sd hsd2
          have hsdschema : sd.schema = tt.schema ++ ["x_scaled"] :=
            congrArg DataFrame.schema hshape
          cases htd : train_data rnd df0 with
          | error e =>
              unfold training at h
              rw [htd] at h
              exact absurd h (by simp [Except.map])
          | ok td =>
              unfold training at h
              rw [htd] at h
              simp only [Except.map, Except.ok.injEq] at h
              have hschema : td.schema = sd.schema := by
                unfold train_data splitData at htd
                rw [hsd] at htd
                simp only [Except.map, Except.ok.injEq] at htd
                rw [← htd]
                rfl
              have hlast : lastColumn td = "x_scaled" := by
                unfold lastColumn
                rw [hschema, hsdschema]
                exact getLastD_append_singleton tt.schema "x_scaled" ""
              rw [hlast] at h
              refine ⟨?_, ?_, ?_, td, rfl, hlast, h.symm⟩
              · rw [← h]
                rfl
              · rw [← h]
                show "CLASS" ∉ ["x_scaled"]
                decide
              · rw [← h]
                show "NSP" ∉ ["x_scaled"]
                decide

/-- C4: on a dataframe with distinct column names and numeric,
schema-length rows, the assembler concatenates into `x_vec`, for every
row, exactly the values of every column except the two labels `CLASS` and
`NSP`, in schema order (the appended vector is the value part of the
row's (name, value) pairs pruned of the label columns). -/
theorem assembler_concatenates_nonlabel_columns (df : DataFrame)
    (hnd : df.schema.Nodup)
    (hlen : ∀ r ∈ df.rows, r.length = df.schema.length)
    (hnum : ∀ r ∈ df.rows, ∀ c ∈ r, ∃ q : ℚ, c = Cell.num q) :
    assemblerTransform (featuresToScale df) "x_vec" df =
      Except.ok
        { schema := df.schema ++ ["x_vec"],
          rows := df.rows.map (fun r =>
            r ++ [Cell.vec ((prunePairs ["CLASS", "NSP"] df.schema r).map
              (fun pr => numVal pr.2))]) } := by
  unfold assemblerTransform
  rw [mapM_ok_map _ (fun r =>
      r ++ [Cell.vec ((prunePairs ["CLASS", "NSP"] df.schema r).map
        (fun pr => numVal pr.2))]) df.rows ?_]
  · rfl
  · intro r hr
    unfold featuresToScale
    rw [assembleRow_filter (fun c => !(["CLASS", "NSP"].contains c)) df.schema
      r hnd (hlen r hr) (hnum r hr)]
    rfl

/-- C1 counterexample: on the concrete dataset `constRaw`, whose only
feature column `DR` is constant, the scaler outputs 0.5 at that dimension,
while the claimed formula `(x - min)/(max - min)` has a zero denominator
there and (as a total operation on ℚ) evaluates to 0, not 0.5 — so the
claim as stated (the formula holds for every feature dimension) is false
at this input. -/
theorem minmax_scaling_formula_counterexample :
    scaledData constRaw = Except.ok constScaled ∧
    constScaled.rows.map (fun r => r.getLastD Cell.null) =
      [Cell.vec [1 / 2], Cell.vec [1 / 2]] ∧
    scaleCell 0 0 0 = 1 / 2 ∧
    ((0 : ℚ) - 0) / (0 - 0) = 0 ∧
    ((1 : ℚ) / 2) ≠ ((0 : ℚ) - 0) / (0 - 0) := by
  refine ⟨rfl, rfl, ?_, ?_, ?_⟩
  · simp [scaleCell]
  · norm_num
  · norm_num

/-- C1 (amended): the min-max scaling step fits its per-dimension
minimum/maximum parameters exactly once, on the `x_vec` column of the
whole input dataframe, before any split (both parts of a subsequent
`randomSplit` contain only rows of the already-scaled data); for every row
and every feature dimension whose observed minimum differs from its
observed maximum, the scaled value equals `(x - min)/(max - min)`, and
every scaled value lies in [0, 1]; the fitted parameters are the observed
bounds of the full dataset (they bound every row's value and are attained
by some row). Dimensions with min = max are the case split out in C8. -/
theorem minmax_scaling_formula (df sd : DataFrame)
    (h : minMaxScalerFitTransform "x_vec" "x_scaled" df = Except.ok sd) :
    ∃ vecs mn mx,
      df.rows.mapM (fun r => getVec df.schema r "x_vec") = Except.ok vecs ∧
      fitMin vecs = some mn ∧ fitMax vecs = some mx ∧
      sd = { schema := df.schema ++ ["x_scaled"],
             rows := (df.rows.zip vecs).map
               (fun p => p.1 ++ [Cell.vec (scaleVec mn mx p.2)]) } ∧
      (∀ v ∈ vecs, ∀ (j : ℕ) (hs : j < (scaleVec mn mx v).length)
          (h1 : j < mn.length) (h2 : j < mx.length) (h3 : j < v.length),
          mn.get ⟨j, h1⟩ ≤ v.get ⟨j, h3⟩ ∧ v.get ⟨j, h3⟩ ≤ mx.get ⟨j, h2⟩ ∧
          (mn.get ⟨j, h1⟩ ≠ mx.get ⟨j, h2⟩ →
            (scaleVec mn mx v).get ⟨j, hs⟩ =
              (v.get ⟨j, h3⟩ - mn.get ⟨j, h1⟩) /
                (mx.get ⟨j, h2⟩ - mn.get ⟨j, h1⟩)) ∧
          0 ≤ (scaleVec mn mx v).get ⟨j, hs⟩ ∧
          (scaleVec mn mx v).get ⟨j, hs⟩ ≤ 1) ∧
      (∀ (j : ℕ) (h1 : j < mn.length),
        ∃ v ∈ vecs, ∃ hv : j < v.length, mn.get ⟨j, h1⟩ = v.get ⟨j, hv⟩) ∧
      (∀ (j : ℕ) (h2 : j < mx.length),
        ∃ v ∈ vecs, ∃ hv : j < v.length, mx.get ⟨j, h2⟩ = v.get ⟨j, hv⟩) ∧
      (∀ (rnd : ℕ → ℚ) (r : List Cell),
        r ∈ (randomSplit2 rnd (75 / 100) (35 / 100) sd).1.rows →
          r ∈ sd.rows) ∧
      (∀ (rnd : ℕ → ℚ) (r : List Cell),
        r ∈ (randomSplit2 rnd (75 / 100) (35 / 100) sd).2.rows →
          r ∈ sd.rows) := by
  obtain ⟨vecs, mn, mx, hvecs, hmn, hmx, hshape⟩ :=
    minMax_ok_shape "x_vec" "x_scaled" df sd h
  refine ⟨vecs, mn, mx, hvecs, hmn, hmx, hshape, ?_, ?_, ?_, ?_, ?_⟩
  · intro v hv j hs h1 h2 h3
    have hle := fitMin_le vecs mn hmn v hv j h1 h3
    have hge := fitMax_ge vecs mx hmx v hv j h2 h3
    have hget := scaleVec_get mn mx v j hs h1 h2 h3
    by_cases hc : mn.get ⟨j, h1⟩ = mx.get ⟨j, h2⟩
    · refine ⟨hle, hge, fun hne => absurd hc hne, ?_, ?_⟩
      · rw [hget]
        simp only [scaleCell, if_pos hc]
        norm_num
      · rw [hget]
        simp only [scaleCell, if_pos hc]
        norm_num
    · have hlt : mn.get ⟨j, h1⟩ < mx.get ⟨j, h2⟩ :=
        lt_of_le_of_ne (le_trans hle hge) hc
      have hpos : (0 : ℚ) < mx.get ⟨j, h2⟩ - mn.get ⟨j, h1⟩ :=
        sub_pos.mpr hlt
      refine ⟨hle, hge, ?_, ?_, ?_⟩
      · intro _
        rw [hget]
        simp only [scaleCell, if_neg hc]
      · rw [hget]
        simp only [scaleCell, if_neg hc]
        exact div_nonneg (sub_nonneg.mpr hle) (le_of_lt hpos)
      · rw [hget]
        simp only [scaleCell, if_neg hc]
        rw [div_le_one hpos]
        exact sub_le_sub_right hge _
  · intro j h1
    exact fitMin_attained vecs mn hmn j h1
  · intro j h2
    exact fitMax_attained vecs mx hmx j h2
  · intro rnd r hr
    exact splitRows_fst_mem _ _ 0 sd.rows r hr
  · intro rnd r hr
    exact splitRows_snd_mem _ _ 0 sd.rows r hr

/-- Witness for C1 (amended): the scaler theorem instantiated on the
concrete two-row dataframe `vecOnlyDf`. -/
theorem minmax_scaling_formula_witness :
    ∃ vecs mn mx,
      vecOnlyDf.rows.mapM (fun r => getVec vecOnlyDf.schema r "x_vec") =
        Except.ok vecs ∧
      fitMin vecs = some mn ∧ fitMax vecs = some mx ∧
      vecOnlyScaled = { schema := vecOnlyDf.schema ++ ["x_scaled"],
                        rows := (vecOnlyDf.rows.zip vecs).map
                          (fun p => p.1 ++ [Cell.vec (scaleVec mn mx p.2)]) } ∧
      (∀ v ∈ vecs, ∀ (j : ℕ) (hs : j < (scaleVec mn mx v).length)
          (h1 : j < mn.length) (h2 : j < mx.length) (h3 : j < v.length),
          mn.get ⟨j, h1⟩ ≤ v.get ⟨j, h3⟩ ∧ v.get ⟨j, h3⟩ ≤ mx.get ⟨j, h2⟩ ∧
          (mn.get ⟨j, h1⟩ ≠ mx.get ⟨j, h2⟩ →
            (scaleVec mn mx v).get ⟨j, hs⟩ =
              (v.get ⟨j, h3⟩ - mn.get ⟨j, h1⟩) /
                (mx.get ⟨j, h2⟩ - mn.get ⟨j, h1⟩)) ∧
          0 ≤ (scaleVec mn mx v).get ⟨j, hs⟩ ∧
          (scaleVec mn mx v).get ⟨j, hs⟩ ≤ 1) ∧
      (∀ (j : ℕ) (h1 : j < mn.length),
        ∃ v ∈ vecs, ∃ hv : j < v.length, mn.get ⟨j, h1⟩ = v.get ⟨j, hv⟩) ∧
      (∀ (j : ℕ) (h2 : j < mx.length),
        ∃ v ∈ vecs, ∃ hv : j < v.length, mx.get ⟨j, h2⟩ = v.get ⟨j, hv⟩) ∧
      (∀ (rnd : ℕ → ℚ) (r : List Cell),
        r ∈ (randomSplit2 rnd (75 / 100) (35 / 100) vecOnlyScaled).1.rows →
          r ∈ vecOnlyScaled.rows) ∧
      (∀ (rnd : ℕ → ℚ) (r : List Cell),
        r ∈ (randomSplit2 rnd (75 / 100) (35 / 100) vecOnlyScaled).2.rows →
          r ∈ vecOnlyScaled.rows) :=
  minmax_scaling_formula vecOnlyDf vecOnlyScaled (by
    have h1 : vecOnlyDf.rows.mapM
        (fun r => getVec vecOnlyDf.schema r "x_vec") =
        Except.ok [[(0 : ℚ)], [2]] := rfl
    have h2 : fitMin [[(0 : ℚ)], [2]] = some [0] := by
      norm_num [fitMin, min_def]
    have h3 : fitMax [[(0 : ℚ)], [2]] = some [2] := by
      norm_num [fitMax, max_def]
    unfold minMaxScalerFitTransform
    rw [h1]
    simp only [Except.bind, h2, h3]
    norm_num [vecOnlyDf, vecOnlyScaled, scaleVec, scaleCell])

/-- Witness for C2: the partition theorem instantiated on the concrete
split of `constRaw` with seed 23. -/
theorem randomSplit_partitions_rows_witness :
    ∃ sd, scaledData constRaw = Except.ok sd ∧
      constTrain.schema = sd.schema ∧ constTest.schema = sd.schema ∧
      (∀ r : List Cell, constTrain.rows.count r + constTest.rows.count r =
        sd.rows.count r) ∧
      constTrain.rows.length + constTest.rows.length = sd.rows.length ∧
      (∀ r ∈ constTrain.rows, r ∈ sd.rows) ∧
      (∀ r ∈ constTest.rows, r ∈ sd.rows) ∧
      ∀ td2 ts2, splitData (seededDraw splitSeed) constRaw =
          Except.ok (td2, ts2) →
        td2 = constTrain ∧ ts2 = constTest :=
  randomSplit_partitions_rows constRaw constTrain constTest (by
    have hsd : scaledData constRaw = Except.ok constScaled := rfl
    have hd0 : ¬ (seededDraw splitSeed 0 <
        (75 : ℚ) / 100 / ((75 : ℚ) / 100 + (35 : ℚ) / 100)) := by
      norm_num [seededDraw, splitSeed]
    have hd1 : seededDraw splitSeed (0 + 1) <
        (75 : ℚ) / 100 / ((75 : ℚ) / 100 + (35 : ℚ) / 100) := by
      norm_num [seededDraw, splitSeed]
    unfold splitData
    rw [hsd]
    simp only [Except.map, randomSplit2, splitRows, if_neg hd0, if_pos hd1]
    rfl)

/-- Witness for C10: the `training` theorem instantiated on the concrete
run over `constRaw`. -/
theorem training_selects_only_scaled_features_witness :
    constTraining.schema = ["x_scaled"] ∧
    "CLASS" ∉ constTraining.schema ∧ "NSP" ∉ constTraining.schema ∧
    ∃ td, train_data (seededDraw splitSeed) constRaw = Except.ok td ∧
      lastColumn td = "x_scaled" ∧
      constTraining = selectCol "x_scaled" td :=
  training_selects_only_scaled_features (seededDraw splitSeed) constRaw
    constTraining (by
      have hsd : scaledData constRaw = Except.ok constScaled := rfl
      have hd0 : ¬ (seededDraw splitSeed 0 <
          (75 : ℚ) / 100 / ((75 : ℚ) / 100 + (35 : ℚ) / 100)) := by
        norm_num [seededDraw, splitSeed]
      have hd1 : seededDraw splitSeed (0 + 1) <
          (75 : ℚ) / 100 / ((75 : ℚ) / 100 + (35 : ℚ) / 100) := by
        norm_num [seededDraw, splitSeed]
      unfold training train_data splitData
      rw [hsd]
      simp only [Except.map, randomSplit2, splitRows, if_neg hd0, if_pos hd1]
      rfl)

/-- Witness for C4: the assembler applied to the pruned sample dataset
builds exactly the non-label value vectors. -/
theorem assembler_concatenates_nonlabel_columns_witness :
    assemblerTransform (featuresToScale (prunedDf sampleRaw)) "x_vec"
        (prunedDf sampleRaw) =
      Except.ok
        { schema := (prunedDf sampleRaw).schema ++ ["x_vec"],
          rows := (prunedDf sampleRaw).rows.map (fun r =>
            r ++ [Cell.vec ((prunePairs ["CLASS", "NSP"]
              (prunedDf sampleRaw).schema r).map
              (fun pr => numVal pr.2))]) } :=
  assembler_concatenates_nonlabel_columns (prunedDf sampleRaw)
    (by decide) (by decide)
    (by
      intro r hr c hc
      fin_cases hr <;> fin_cases hc <;> exact ⟨_, rfl⟩)

end CTG
